import Mathlib

/-!
Verification development for the `world-globe` repository (`main.py`).

The Python pipeline loads wide-format CSV tables, reshapes them to long
form, resolves country names to ISO-3 codes, builds per-country per-year
value arrays, attaches them to GeoJSON features, and emits an HTML viewer
whose embedded JavaScript normalizes values to heights and colors.

Python strings are embedded as `List Char` (so that every operation is a
kernel-computable structural function), Python floats as rationals with
`NaN`/missing cells as `Option.none`, and the viewer's JavaScript numeric
code is idealized over `ℝ`.
-/

namespace WorldGlobe

open Real

/-! ## Strings as character lists -/

/-- A Python string, as its list of characters. -/
abbrev Str := List Char

/-- Conversion from a Lean string literal. -/
def strOf (x : String) : Str := x.data

/-- Python `s.strip()`: remove leading and trailing whitespace. -/
def strTrim (s : Str) : Str :=
  ((s.dropWhile Char.isWhitespace).reverse.dropWhile Char.isWhitespace).reverse

/-- Python `s.lower()` (ASCII case folding). -/
def strLower (s : Str) : Str := s.map Char.toLower

/-- Python `s.upper()` (ASCII case folding). -/
def strUpper (s : Str) : Str := s.map Char.toUpper

/-- Fuel-driven body of `strReplace`; the fuel starts at the string's
length, which the scan never exhausts. -/
def strReplaceFuel (pat rep : Str) : Nat → Str → Str
  | _, [] => []
  | 0, s => s
  | fuel + 1, c :: rest =>
    if !pat.isEmpty && pat.isPrefixOf (c :: rest) then
      rep ++ strReplaceFuel pat rep fuel ((c :: rest).drop pat.length)
    else c :: strReplaceFuel pat rep fuel rest

/-- Python `s.replace(pat, rep)`: replace non-overlapping occurrences left
to right (the program only ever calls it with nonempty patterns). -/
def strReplace (s pat rep : Str) : Str := strReplaceFuel pat rep s.length s

/-- Python `s.split(sep)` for a single-character separator: empty segments
are kept. -/
def splitOnChar (sep : Char) : Str → List Str
  | [] => [[]]
  | c :: rest =>
    match splitOnChar sep rest with
    | [] => [[]]
    | h :: t => if c = sep then [] :: h :: t else (c :: h) :: t

/-- Python `p.split("(")[0]`: the prefix before the first `(`. -/
def beforeParen (s : Str) : Str := s.takeWhile (· ≠ '(')

/-- Python `c.isdigit()` on a header string: nonempty and all digits. -/
def isDigitStr (s : Str) : Bool := !s.isEmpty && s.all Char.isDigit

/-- Decimal value of a digit string (Python `int(...)` on such input). -/
def strToNat (s : Str) : Nat := s.foldl (fun n c => n * 10 + (c.toNat - 48)) 0

/-! ## Viewer math (JavaScript inside `write_html`) -/

/-- JS `function clamp(x, a, b) { return Math.max(a, Math.min(b, x)); }`. -/
noncomputable def clamp (x a b : ℝ) : ℝ := max a (min b x)

/-- The percentile interpolator `p` from `computeHeights`:
`idx = (arr.length - 1) * q; lo = floor(idx); hi = ceil(idx); t = idx - lo;
return (1 - t) * arr[lo] + t * arr[hi]`. -/
noncomputable def percentile (arr : List ℝ) (q : ℝ) : ℝ :=
  let idx : ℝ := ((arr.length : ℝ) - 1) * q
  let lo := ⌊idx⌋₊
  let hi := ⌈idx⌉₊
  let t := idx - (lo : ℝ)
  (1 - t) * arr.getD lo 0 + t * arr.getD hi 0

/-- The per-entry log transform of `computeHeights`:
`v = Math.max(0, Number(x) || 0); logv = Math.log10(v + 1)`. -/
noncomputable def logOf (x : ℝ) : ℝ := Real.logb 10 (max 0 x + 1)

/-- `logv` array of `computeHeights`. -/
noncomputable def logvOf (values : List ℝ) : List ℝ := values.map logOf

/-- `nz`: the non-zero (strictly positive) log-values, sorted ascending
(`logv.filter(x => x > 0).sort((a,b) => a-b)`). -/
noncomputable def nzOf (values : List ℝ) : List ℝ :=
  List.insertionSort (· ≤ ·) ((logvOf values).filter fun x => decide (0 < x))

/-- The normalization bounds used by `computeHeights`:
`lo = p(nz, 0.05); hi = p(nz, 0.98)`. -/
noncomputable def boundsOf (values : List ℝ) : ℝ × ℝ :=
  (percentile (nzOf values) 0.05, percentile (nzOf values) 0.98)

/-- The final per-entry mapping of `computeHeights`:
`x = clamp(x, lo, hi); x = (x - lo) / denom; x = Math.pow(clamp(x, 0, 1), power)`,
with `denom = (hi - lo) || 1e-9`. -/
noncomputable def heightMap (lo hi power x : ℝ) : ℝ :=
  let denom := if hi - lo = 0 then 1e-9 else hi - lo
  let x1 := clamp x lo hi
  let x2 := (x1 - lo) / denom
  (clamp x2 0 1) ^ power

/-- JS `computeHeights(values, power)` from the emitted viewer: log-transform,
percentile bounds over the sorted non-zero log-values, clamp/rescale/power;
returns all zeros when no non-zero log-value exists. -/
noncomputable def computeHeights (values : List ℝ) (power : ℝ) : List ℝ :=
  if nzOf values = [] then (logvOf values).map fun _ => 0
  else (logvOf values).map
    (heightMap (boundsOf values).1 (boundsOf values).2 power)

/-- JS `colorFromT(t)`: clamp `t` to `[0,1]`, then
`[round(60 + 180 t), round(160 - 110 t), round(230 - 150 t), 220]`. -/
noncomputable def colorFromT (t : ℝ) : ℤ × ℤ × ℤ × ℤ :=
  let t' := clamp t 0 1
  (round (60 + 180 * t'), round (160 - 110 * t'), round (230 - 150 * t'), 220)

/-- The fallback color in `polygonCapColor` when a feature has no computed
`_col`: `[120,120,120,120]`, a neutral gray. -/
def fallbackGray : ℤ × ℤ × ℤ × ℤ := (120, 120, 120, 120)

/-- The color given to filtered-out (inactive) features in
`updateComputedProps`: `[60, 60, 60, 60]`. -/
def inactiveColor : ℤ × ℤ × ℤ × ℤ := (60, 60, 60, 60)

/-! ## Tabular loaders (`wide_to_long`) -/

/-- A wide-format table: column headers plus rows, each row giving the cell
text for a column name (CSV cells modelled as strings). -/
structure WideTable where
  cols : List Str
  rows : List (Str → Str)

/-- `year_cols = [c for c in df.columns if c.isdigit()]`. -/
def yearColsOf (w : WideTable) : List Str := w.cols.filter isDigitStr

/-- One row of the melted long form: `(code, year, value)`. -/
structure MeltRow where
  code : Str
  year : Int
  value : Str
deriving DecidableEq

/-- `wide_to_long`: select the code column plus the digit-named year columns
and `melt` with `id_vars=[code_col]` (pandas stacks one block per year
column, each block listing every row in order), converting the year header
to an integer (`astype(int)`). -/
def wide_to_long (w : WideTable) (code_col : Str) : List MeltRow :=
  (yearColsOf w).flatMap fun c =>
    w.rows.map fun r => ⟨r code_col, (strToNat c : Nat), r c⟩

/-! ## `build_iso3_series` -/

/-- One row of a long-form metric table; `value = none` models a
missing/NaN cell (`pd.isna`), floats idealized as rationals. -/
structure LongRow where
  iso3 : Str
  year : Int
  value : Option ℚ
deriving DecidableEq

/-- `year_index = {y: i for i, y in enumerate(years)}` followed by
`.get(y)`: the index of the last occurrence of `y` in `years` (a Python
dict comprehension lets later duplicates overwrite earlier ones). -/
def yearIndex (years : List Int) (y : Int) : Option Nat :=
  (years.enum.filterMap fun p => if p.2 = y then some p.1 else none).getLast?

/-- `v = row[value_col]; if pd.isna(v): v = 0.0; float(v)`. -/
def valueOrZero (v : Option ℚ) : ℚ := v.getD 0

/-- One iteration of the inner loop of `build_iso3_series`: write the
row's value at its year's index (`arr[i] = float(v)`), leaving the array
unchanged when the row's year is not in `years`. -/
def seriesStep (years : List Int) (arr : List ℚ) (row : LongRow) : List ℚ :=
  match yearIndex years row.year with
  | some i => arr.set i (valueOrZero row.value)
  | none => arr

/-- The inner loop of `build_iso3_series` for one `groupby` group:
start from `[0.0] * len(years)` and write each row's value at its year's
index, skipping rows whose year is not in `years`. -/
def seriesForGroup (years : List Int) (sub : List LongRow) : List ℚ :=
  sub.foldl (seriesStep years) (List.replicate years.length 0)

/-- The group keys of `df_long.groupby("iso3")`: the distinct `iso3`
values, in ascending lexicographic order (pandas sorts group keys by
default). -/
def groupKeys (rows : List LongRow) : List Str :=
  List.insertionSort (· ≤ ·) (rows.map (·.iso3)).dedup

/-- Insert into a Python-dict-like association list: overwrite in place if
the key is present, else append. -/
def dictInsert {α : Type} : List (Str × α) → Str → α → List (Str × α)
  | [], k, v => [(k, v)]
  | (k', v') :: rest, k, v =>
      if k' = k then (k, v) :: rest else (k', v') :: dictInsert rest k v

/-- `build_iso3_series(df_long, years, value_col)`: for each group (in
sorted key order, each group keeping the input's row order), build its
year-indexed array and store it under `str(iso3).upper()`. -/
def build_iso3_series (rows : List LongRow) (years : List Int) :
    List (Str × List ℚ) :=
  (groupKeys rows).foldl
    (fun out k =>
      dictInsert out (strUpper k) (seriesForGroup years (rows.filter (·.iso3 = k))))
    []

/-! ## `attach_all_properties` -/

/-- A GeoJSON feature's properties bag, restricted to the keys the program
reads or writes; `none` models an absent key. -/
structure Feature where
  adm0A3 : Option Str
  pop : Option (List ℚ)
  gdp : Option (List ℚ)
  continent : Option Str
  langs : Option (List Str)
deriving DecidableEq

/-- `str(props.get("ADM0_A3") or "").upper()` (an absent or empty value
falls back to `""`). -/
def iso3OfFeature (f : Feature) : Str := strUpper (f.adm0A3.getD [])

/-- Python `dict.get(k, d)` on an association list. -/
def lookupD {α : Type} (m : List (Str × α)) (k : Str) (d : α) : α :=
  (m.lookup k).getD d

/-- The per-feature body of `attach_all_properties`: set the four keys
`pop`, `gdp`, `continent`, `langs`, with defaults
`[0.0]*len(years)`, `[0.0]*len(years)`, `"Unknown"`, `[]`. -/
def attach_feature (years : List Int)
    (pop_series gdp_series : List (Str × List ℚ))
    (continent_map : List (Str × Str))
    (iso3_to_langs : List (Str × List Str)) (f : Feature) : Feature :=
  let iso3 := iso3OfFeature f
  { f with
    pop := some (lookupD pop_series iso3 (List.replicate years.length 0))
    gdp := some (lookupD gdp_series iso3 (List.replicate years.length 0))
    continent := some (lookupD continent_map iso3 (strOf ("Unknown")))
    langs := some (lookupD iso3_to_langs iso3 []) }

/-- `attach_all_properties`: annotate every feature of the collection. -/
def attach_all_properties (years : List Int)
    (pop_series gdp_series : List (Str × List ℚ))
    (continent_map : List (Str × Str))
    (iso3_to_langs : List (Str × List Str))
    (feats : List Feature) : List Feature :=
  feats.map (attach_feature years pop_series gdp_series continent_map iso3_to_langs)

/-! ## Viewer state and `updateComputedProps` (JavaScript) -/

/-- The viewer's `state` object. -/
structure ViewerState where
  metric : Str
  yearIdx : Nat
  continent : Str
  language : Str
  maxalt : ℝ
  power : ℝ

/-- The initial `state`: metric `"population"`, `yearIndex` the last year,
filters `"All"`, `maxalt = 0.12`, `power = 0.35`. -/
noncomputable def initState (numYears : Nat) : ViewerState :=
  ⟨strOf ("population"), numYears - 1, strOf ("All"), strOf ("All"), 0.12, 0.35⟩

/-- JS `x || d` on a string-valued property (`undefined` or `""` falls back
to the default). -/
def jsOrStr (o : Option Str) (d : Str) : Str :=
  match o with
  | none => d
  | some s => if s = [] then d else s

/-- JS `matchesContinent`. -/
def matchesContinent (st : ViewerState) (f : Feature) : Bool :=
  st.continent = strOf ("All") ||
    jsOrStr f.continent (strOf ("Unknown")) = st.continent

/-- JS `matchesLanguage` (case-insensitive membership). -/
def matchesLanguage (st : ViewerState) (f : Feature) : Bool :=
  st.language = strOf ("All") ||
    (f.langs.getD []).any fun l => strLower l = strLower st.language

/-- JS `rawValueFor`: `p.pop?.[state.yearIndex] ?? 0` for the selected
metric, `0` for an unknown metric. -/
def rawValueFor (st : ViewerState) (f : Feature) : ℚ :=
  if st.metric = strOf ("population") then (f.pop.getD []).getD st.yearIdx 0
  else if st.metric = strOf ("gdp_pc") then (f.gdp.getD []).getD st.yearIdx 0
  else 0

/-- The transient visual fields `_t`, `_alt`, `_col`, `_val` written by
`updateComputedProps`. -/
structure Derived where
  t : ℝ
  alt : ℝ
  col : ℤ × ℤ × ℤ × ℤ
  val : ℚ

/-- The active subset of `updateComputedProps`:
`feats.filter(f => matchesContinent(f) && matchesLanguage(f))`. -/
def activeFeatures (st : ViewerState) (feats : List Feature) : List Feature :=
  feats.filter fun f => matchesContinent st f && matchesLanguage st f

/-- `updateComputedProps` on the active subset: `tVals =
computeHeights(active.map(rawValueFor), state.power)`, then each active
feature `i` gets `_t = tVals[i]`, `_alt = t * state.maxalt`,
`_col = colorFromT(t)`, `_val = rawValueFor(f)`. -/
noncomputable def activeDerived (st : ViewerState) (feats : List Feature) :
    List Derived :=
  let active := activeFeatures st feats
  let tVals := computeHeights (active.map fun f => ((rawValueFor st f : ℚ) : ℝ)) st.power
  List.zipWith (fun f t => ⟨t, t * st.maxalt, colorFromT t, rawValueFor st f⟩)
    active tVals

/-- `updateComputedProps` on filtered-out features:
`_t = 0`, `_alt = 0`, `_col = [60,60,60,60]`, `_val = 0`. -/
noncomputable def inactiveDerived : Derived := ⟨0, 0, inactiveColor, 0⟩

/-- A feature with no properties at all (used as a list-access default in
statements; never produced by the program). -/
def emptyFeature : Feature := ⟨none, none, none, none, none⟩

/-! ## Country identity resolution (`to_iso3`) -/

/-- The static alias table `patches` from `to_iso3`. -/
def patches : List (Str × Str) :=
  [(strOf ("United States of America"), strOf ("United States")),
   (strOf ("United States"), strOf ("United States")),
   (strOf ("UK"), strOf ("United Kingdom")),
   (strOf ("U.K."), strOf ("United Kingdom")),
   (strOf ("United Kingdom of Great Britain and Northern Ireland"),
    strOf ("United Kingdom")),
   (strOf ("Russia"), strOf ("Russian Federation")),
   (strOf ("Venezuela"), strOf ("Venezuela, Bolivarian Republic of")),
   (strOf ("Bolivia"), strOf ("Bolivia, Plurinational State of")),
   (strOf ("Iran"), strOf ("Iran, Islamic Republic of")),
   (strOf ("Syria"), strOf ("Syrian Arab Republic")),
   (strOf ("Tanzania"), strOf ("Tanzania, United Republic of")),
   (strOf ("South Korea"), strOf ("Korea, Republic of")),
   (strOf ("North Korea"), strOf ("Korea, Democratic People\x27s Republic of")),
   (strOf ("Vietnam"), strOf ("Viet Nam")),
   (strOf ("Laos"), strOf ("Lao People\x27s Democratic Republic")),
   (strOf ("Moldova"), strOf ("Moldova, Republic of")),
   (strOf ("Czech Republic"), strOf ("Czechia")),
   (strOf ("Ivory Coast"), strOf ("Côte d\x27Ivoire")),
   (strOf ("Cape Verde"), strOf ("Cabo Verde")),
   (strOf ("Palestine"), strOf ("Palestine, State of")),
   (strOf ("Republic of the Congo"), strOf ("Congo")),
   (strOf ("Democratic Republic of the Congo"),
    strOf ("Congo, The Democratic Republic of the")),
   (strOf ("Eswatini"), strOf ("Eswatini"))]

/-- `to_iso3`: strip the name, apply the alias table
(`patches.get(name, name)`), then look the result up in the reference
country registry (`pycountry.countries.lookup`, an external data source
modelled as a parameter; `none` models the lookup raising). -/
def to_iso3 (registry : Str → Option Str) (country_name : Str) : Option Str :=
  let name := strTrim country_name
  let aliased := (patches.lookup name).getD name
  registry aliased

/-! ## `parse_languages_cell` -/

/-- The separator normalization loop:
`for sep in [";", "/", "|", " and "]: s = s.replace(sep, ",")`. -/
def normalizeSeps (s : Str) : Str :=
  strReplace (strReplace (strReplace (strReplace s [';'] [','])
    ['/'] [',']) ['|'] [',']) (strOf (" and ")) [',']

/-- The cleaning phase of `parse_languages_cell`: strip, split on commas,
strip each part, drop empties, cut at `"("` and strip again, drop
empties. -/
def cleanParts (cell : Str) : List Str :=
  let s := strTrim cell
  if s = [] then []
  else
    let parts := (splitOnChar ',' (normalizeSeps s)).map strTrim
    parts.filterMap fun p =>
      if p = [] then none
      else
        let p2 := strTrim (beforeParen p)
        if p2 = [] then none else some p2

/-- The dedup loop of `parse_languages_cell`: keep an entry iff its
lower-cased form was not seen before (`seen` accumulates lower-cased
keys). -/
def dedupCIAux : List Str → List Str → List Str
  | _, [] => []
  | seen, x :: xs =>
      if strLower x ∈ seen then dedupCIAux seen xs
      else x :: dedupCIAux (strLower x :: seen) xs

/-- `parse_languages_cell`: normalize separators, clean, then deduplicate
case-insensitively keeping first occurrences. -/
def parse_languages_cell (cell : Str) : List Str :=
  dedupCIAux [] (cleanParts cell)

/-! ## `read_country_languages` -/

/-- Python-falsiness of `to_iso3`'s result (`if not iso3`): `None` or the
empty string. -/
def isFalsyStrOpt (o : Option Str) : Bool :=
  match o with
  | none => true
  | some s => s.isEmpty

/-- Set-insert for the `all_langs_set` accumulator. -/
def setInsert (s : List Str) (x : Str) : List Str :=
  if x ∈ s then s else s ++ [x]

/-- The loop accumulator of `read_country_languages`:
`iso3_to_langs`, `all_langs_set`, `bad_rows`. -/
structure LangAcc where
  map : List (Str × List Str)
  langSet : List Str
  bad : Nat

/-- One iteration of the row loop of `read_country_languages`: count and
skip rows whose name fails ISO-3 resolution, skip rows with no parsed
languages, otherwise record the languages under the code and collect the
stripped language names. -/
def readLangsStep (registry : Str → Option Str) (acc : LangAcc)
    (row : Str × Str) : LangAcc :=
  let iso3opt := to_iso3 registry row.1
  if isFalsyStrOpt iso3opt then { acc with bad := acc.bad + 1 }
  else
    let iso3 := iso3opt.getD []
    let langs := parse_languages_cell row.2
    if langs = [] then acc
    else
      { map := dictInsert acc.map iso3 langs
        langSet := langs.foldl (fun s l => setInsert s (strTrim l)) acc.langSet
        bad := acc.bad }

/-- `read_country_languages` on the extracted (country cell, languages
cell) rows: fold the row loop, then sort the language set by lower-cased
name; returns `(iso3_to_langs, all_languages, bad_rows)`. -/
def read_country_languages (registry : Str → Option Str)
    (rows : List (Str × Str)) :
    List (Str × List Str) × List Str × Nat :=
  let acc := rows.foldl (readLangsStep registry) ⟨[], [], 0⟩
  (acc.map,
   List.insertionSort (fun a b => strLower a ≤ strLower b) acc.langSet,
   acc.bad)

/-! ## `download_geojson` -/

/-- The two exception kinds `download_geojson` can propagate. -/
inductive DlError : Type
  | jsonError : DlError
  | networkError : DlError
deriving DecidableEq

/-- The observable outcome of a `download_geojson` run: the parsed result,
the cache file's content afterwards, whether the network was fetched, and
the list of cache writes (contents, in order). -/
structure DlOutcome (α : Type) where
  result : α
  cacheAfter : Option Str
  fetched : Bool
  wrote : List Str
deriving DecidableEq

/-- `download_geojson`, parameterized over the JSON codec (`loads` models
`json.loads` / `r.json()`, returning `none` when parsing would raise, and
`dumps` models `json.dumps`) and over the environment: `cache` is the
cache file's content if it exists, `net` the remote response body if the
fetch succeeds. Cache hit: parse and return the cache, no fetch and no
write. Cache miss: fetch, parse, write `dumps` of the parsed value once,
return the parsed value. Failures raise (`Except.error`). -/
def download_geojson {α : Type} (loads : Str → Option α) (dumps : α → Str)
    (cache : Option Str) (net : Option Str) : Except DlError (DlOutcome α) :=
  match cache with
  | some c =>
    match loads c with
    | some v => .ok ⟨v, some c, false, []⟩
    | none => .error .jsonError
  | none =>
    match net with
    | none => .error .networkError
    | some body =>
      match loads body with
      | some v => .ok ⟨v, some (dumps v), true, [dumps v]⟩
      | none => .error .jsonError

/-- `json.loads` restricted to JSON documents that are single nonnegative
integers: surrounding whitespace is allowed, the digits must be free of a
leading zero (except `"0"` itself). Models the stdlib `json` parser on
this fragment. -/
def miniLoads (s : Str) : Option Nat :=
  let t := strTrim s
  if t.isEmpty then none
  else if !t.all Char.isDigit then none
  else if t.headD ' ' = '0' && t ≠ ['0'] then none
  else some (strToNat t)

/-- `json.dumps` on a nonnegative integer: its decimal digits, no
surrounding whitespace. -/
def miniDumps (n : Nat) : Str := (toString n).data

/-! ## Helper lemmas -/

theorem dictInsert_mem {α : Type} (m : List (Str × α)) (k : Str) (v : α)
    (p : Str × α) (h : p ∈ dictInsert m k v) : p ∈ m ∨ p = (k, v) := by
  induction m with
  | nil =>
    simp only [dictInsert, List.mem_singleton] at h
    exact Or.inr h
  | cons hd tl ih =>
    obtain ⟨k', v'⟩ := hd
    simp only [dictInsert] at h
    by_cases hk : k' = k
    · rw [if_pos hk] at h
      rcases List.mem_cons.mp h with h | h
      · exact Or.inr h
      · exact Or.inl (List.mem_cons_of_mem _ h)
    · rw [if_neg hk] at h
      rcases List.mem_cons.mp h with h | h
      · exact Or.inl (h ▸ List.mem_cons_self _ _)
      · rcases ih h with h | h
        · exact Or.inl (List.mem_cons_of_mem _ h)
        · exact Or.inr h

theorem readLangsStep_bad (registry : Str → Option Str) (acc : LangAcc)
    (row : Str × Str) :
    (readLangsStep registry acc row).bad =
      if isFalsyStrOpt (to_iso3 registry row.1) then acc.bad + 1 else acc.bad := by
  by_cases h : isFalsyStrOpt (to_iso3 registry row.1) = true
  · simp [readLangsStep, h]
  · simp only [readLangsStep]
    rw [if_neg h, if_neg h]
    split <;> rfl

theorem readLangsStep_map (registry : Str → Option Str) (acc : LangAcc)
    (row : Str × Str) (p : Str × List Str)
    (h : p ∈ (readLangsStep registry acc row).map) :
    p ∈ acc.map ∨
      (to_iso3 registry row.1 = some p.1 ∧
        isFalsyStrOpt (to_iso3 registry row.1) = false ∧
        p.2 = parse_languages_cell row.2) := by
  by_cases hf : isFalsyStrOpt (to_iso3 registry row.1) = true
  · simp only [readLangsStep, hf, if_true] at h
    exact Or.inl h
  · simp only [readLangsStep] at h
    rw [if_neg hf] at h
    by_cases hl : parse_languages_cell row.2 = []
    · rw [if_pos hl] at h
      exact Or.inl h
    · rw [if_neg hl] at h
      rcases dictInsert_mem _ _ _ _ h with h | h
      · exact Or.inl h
      · refine Or.inr ⟨?_, by simpa using hf, ?_⟩
        · cases hreg : to_iso3 registry row.1 with
          | none => rw [hreg] at hf; simp [isFalsyStrOpt] at hf
          | some s => simp [h, hreg]
        · simp [h]

theorem readLangs_foldl_bad (registry : Str → Option Str)
    (rows : List (Str × Str)) : ∀ acc : LangAcc,
    (rows.foldl (readLangsStep registry) acc).bad =
      acc.bad +
        (rows.filter fun row => isFalsyStrOpt (to_iso3 registry row.1)).length := by
  induction rows with
  | nil => intro acc; simp
  | cons r rs ih =>
    intro acc
    rw [List.foldl_cons, ih, readLangsStep_bad]
    by_cases h : isFalsyStrOpt (to_iso3 registry r.1) = true
    · simp [List.filter_cons, h]
      omega
    · simp [List.filter_cons, h]

theorem readLangs_foldl_map (registry : Str → Option Str)
    (rows : List (Str × Str)) : ∀ (acc : LangAcc) (p : Str × List Str),
    p ∈ (rows.foldl (readLangsStep registry) acc).map →
      p ∈ acc.map ∨
        ∃ row ∈ rows, to_iso3 registry row.1 = some p.1 ∧
          isFalsyStrOpt (to_iso3 registry row.1) = false ∧
          p.2 = parse_languages_cell row.2 := by
  induction rows with
  | nil => intro acc p h; exact Or.inl h
  | cons r rs ih =>
    intro acc p h
    rw [List.foldl_cons] at h
    rcases ih _ p h with h' | ⟨row, hrow, hx⟩
    · rcases readLangsStep_map registry acc r p h' with h'' | h''
      · exact Or.inl h''
      · exact Or.inr ⟨r, List.mem_cons_self _ _, h''⟩
    · exact Or.inr ⟨row, List.mem_cons_of_mem _ hrow, hx⟩

theorem getD_set_eq {α : Type} (l : List α) (i : Nat) (v d : α)
    (h : i < l.length) : (l.set i v).getD i d = v := by
  rw [List.getD_eq_getElem _ _ (by simpa using h)]
  simp [List.getElem_set, h]

theorem getD_set_ne {α : Type} (l : List α) (i j : Nat) (v d : α)
    (h : i ≠ j) : (l.set j v).getD i d = l.getD i d := by
  by_cases hi : i < l.length
  · rw [List.getD_eq_getElem _ _ (by simpa using hi), List.getD_eq_getElem _ _ hi]
    simp [List.getElem_set, h.symm]
  · rw [List.getD_eq_default, List.getD_eq_default] <;> simp at hi ⊢ <;> omega

theorem getD_replicate {α : Type} (n i : Nat) (d : α) :
    (List.replicate n d).getD i d = d := by
  by_cases h : i < n
  · rw [List.getD_eq_getElem _ _ (by simpa using h)]
    simp
  · rw [List.getD_eq_default]
    simpa using Nat.le_of_not_lt h

theorem yearIndex_some_lt (years : List Int) (y : Int) (i : Nat)
    (h : yearIndex years y = some i) : i < years.length := by
  have hmem : i ∈ years.enum.filterMap fun p => if p.2 = y then some p.1 else none :=
    List.mem_of_mem_getLast? h
  rcases List.mem_filterMap.mp hmem with ⟨⟨j, x⟩, hp, hif⟩
  by_cases hxy : x = y
  · simp only [hxy, if_pos rfl] at hif
    injection hif with hji
    subst hji
    rw [List.mk_mem_enum_iff_getElem?] at hp
    exact (List.getElem?_eq_some.mp hp).1
  · simp [hxy] at hif

theorem seriesStep_length (years : List Int) (arr : List ℚ) (row : LongRow) :
    (seriesStep years arr row).length = arr.length := by
  unfold seriesStep
  split <;> simp

theorem seriesFold_length (years : List Int) :
    ∀ (sub : List LongRow) (arr : List ℚ),
      (sub.foldl (seriesStep years) arr).length = arr.length := by
  intro sub
  induction sub with
  | nil => intro arr; rfl
  | cons r rs ih =>
    intro arr
    rw [List.foldl_cons, ih, seriesStep_length]

theorem seriesForGroup_length (years : List Int) (sub : List LongRow) :
    (seriesForGroup years sub).length = years.length := by
  unfold seriesForGroup
  rw [seriesFold_length]
  simp

theorem seriesFold_getD_zero (years : List Int) (i : Nat) :
    ∀ (sub : List LongRow) (arr : List ℚ),
      arr.getD i 0 = 0 →
      (∀ r ∈ sub, yearIndex years r.year = some i → r.value = none) →
      (sub.foldl (seriesStep years) arr).getD i 0 = 0 := by
  intro sub
  induction sub with
  | nil => intro arr h0 _; exact h0
  | cons r rs ih =>
    intro arr h0 hall
    rw [List.foldl_cons]
    refine ih _ ?_ fun r' hr' => hall r' (List.mem_cons_of_mem _ hr')
    cases hyi : yearIndex years r.year with
    | none => simpa only [seriesStep, hyi] using h0
    | some j =>
      simp only [seriesStep, hyi]
      by_cases hj : j = i
      · subst hj
        have hv : r.value = none := hall r (List.mem_cons_self _ _) hyi
        by_cases hlen : j < arr.length
        · rw [getD_set_eq _ _ _ _ hlen, hv]
          rfl
        · rw [List.set_eq_of_length_le (Nat.le_of_not_lt hlen)]
          exact h0
      · rw [getD_set_ne _ _ _ _ _ fun hc => hj hc.symm]
        exact h0

theorem seriesFold_last (years : List Int) (i : Nat) (r : LongRow) :
    ∀ sub : List LongRow,
      (sub.filter fun r' => decide (yearIndex years r'.year = some i)).getLast?
          = some r →
      (seriesForGroup years sub).getD i 0 = valueOrZero r.value := by
  intro sub
  induction sub using List.reverseRecOn with
  | nil => intro h; simp at h
  | append_singleton xs x ih =>
    intro h
    have hstep : seriesForGroup years (xs ++ [x]) =
        seriesStep years (seriesForGroup years xs) x := by
      unfold seriesForGroup
      rw [List.foldl_append]
      rfl
    rw [List.filter_append] at h
    cases hyx : yearIndex years x.year with
    | none =>
      rw [hstep]
      simp only [seriesStep, hyx]
      refine ih ?_
      simpa [hyx] using h
    | some j =>
      by_cases hj : j = i
      · subst hj
        have hx : (List.filter (fun r' => decide (yearIndex years r'.year = some j)) [x]) = [x] := by
          simp [hyx]
        rw [hx, List.getLast?_concat] at h
        injection h with hr
        subst hr
        rw [hstep]
        simp only [seriesStep, hyx]
        exact getD_set_eq _ _ _ _
          (by rw [seriesForGroup_length]; exact yearIndex_some_lt years _ _ hyx)
      · have hx : (List.filter (fun r' => decide (yearIndex years r'.year = some i)) [x]) = [] := by
          simp [hyx, hj]
        rw [hx, List.append_nil] at h
        rw [hstep]
        simp only [seriesStep, hyx]
        rw [getD_set_ne _ _ _ _ _ fun hc => hj hc.symm]
        exact ih h

theorem foldl_dictInsert_mem {α : Type} (f : Str → Str) (g : Str → α) :
    ∀ (keys : List Str) (init : List (Str × α)) (p : Str × α),
      p ∈ keys.foldl (fun out k => dictInsert out (f k) (g k)) init →
      p ∈ init ∨ ∃ k0 ∈ keys, p = (f k0, g k0) := by
  intro keys
  induction keys with
  | nil => intro init p h; exact Or.inl h
  | cons k ks ih =>
    intro init p h
    rw [List.foldl_cons] at h
    rcases ih _ p h with h' | ⟨k0, hk0, hp⟩
    · rcases dictInsert_mem _ _ _ _ h' with h'' | h''
      · exact Or.inl h''
      · exact Or.inr ⟨k, List.mem_cons_self _ _, h''⟩
    · exact Or.inr ⟨k0, List.mem_cons_of_mem _ hk0, hp⟩

theorem build_iso3_series_mem (rows : List LongRow) (years : List Int)
    (p : Str × List ℚ) (h : p ∈ build_iso3_series rows years) :
    ∃ k0 ∈ groupKeys rows, p.1 = strUpper k0 ∧
      p.2 = seriesForGroup years (rows.filter (·.iso3 = k0)) := by
  unfold build_iso3_series at h
  rcases foldl_dictInsert_mem _ _ _ _ _ h with h' | ⟨k0, hk0, hp⟩
  · simp at h'
  · exact ⟨k0, hk0, by rw [hp], by rw [hp]⟩

theorem groupKeys_mem (rows : List LongRow) (k0 : Str)
    (h : k0 ∈ groupKeys rows) : ∃ r ∈ rows, r.iso3 = k0 := by
  unfold groupKeys at h
  rw [(List.perm_insertionSort _ _).mem_iff, List.mem_dedup] at h
  rcases List.mem_map.mp h with ⟨r, hr, hk⟩
  exact ⟨r, hr, hk⟩

theorem dedupCIAux_sublist : ∀ (seen : List Str) (l : List Str),
    List.Sublist (dedupCIAux seen l) l := by
  intro seen l
  induction l generalizing seen with
  | nil => simp [dedupCIAux]
  | cons x xs ih =>
    rw [dedupCIAux]
    split
    · exact (ih seen).trans (List.sublist_cons_self x xs)
    · exact (ih (strLower x :: seen)).cons₂ x

theorem dedupCIAux_not_seen : ∀ (seen : List Str) (l : List Str),
    ∀ y ∈ dedupCIAux seen l, strLower y ∉ seen := by
  intro seen l
  induction l generalizing seen with
  | nil => simp [dedupCIAux]
  | cons x xs ih =>
    rw [dedupCIAux]
    split
    · exact ih seen
    · next hx =>
      intro y hy
      rcases List.mem_cons.mp hy with hy | hy
      · rw [hy]; exact hx
      · have := ih (strLower x :: seen) y hy
        exact fun hc => this (List.mem_cons_of_mem _ hc)

theorem dedupCIAux_nodup : ∀ (seen : List Str) (l : List Str),
    ((dedupCIAux seen l).map strLower).Nodup := by
  intro seen l
  induction l generalizing seen with
  | nil => simp [dedupCIAux]
  | cons x xs ih =>
    rw [dedupCIAux]
    split
    · exact ih seen
    · rw [List.map_cons, List.nodup_cons]
      refine ⟨fun hc => ?_, ih (strLower x :: seen)⟩
      rcases List.mem_map.mp hc with ⟨y, hy, hxy⟩
      exact dedupCIAux_not_seen _ _ y hy (hxy ▸ List.mem_cons_self _ _)

theorem dedupCIAux_covers : ∀ (seen : List Str) (l : List Str),
    ∀ x ∈ l, strLower x ∉ seen →
      ∃ y ∈ dedupCIAux seen l, strLower y = strLower x := by
  intro seen l
  induction l generalizing seen with
  | nil => simp
  | cons hd xs ih =>
    intro x hx hnseen
    rw [dedupCIAux]
    split
    · next hhd =>
      rcases List.mem_cons.mp hx with hx | hx
      · rw [hx] at hnseen
        exact absurd hhd hnseen
      · exact ih seen x hx hnseen
    · next hhd =>
      rcases List.mem_cons.mp hx with hx | hx
      · exact ⟨hd, List.mem_cons_self _ _, by rw [hx]⟩
      · by_cases heq : strLower x = strLower hd
        · exact ⟨hd, List.mem_cons_self _ _, heq.symm⟩
        · rcases ih (strLower hd :: seen) x hx
              (fun hmem => (List.mem_cons.mp hmem).elim heq hnseen) with ⟨y, hy, hxy⟩
          exact ⟨y, List.mem_cons_of_mem _ hy, hxy⟩

theorem dedupCIAux_first : ∀ (seen : List Str) (l : List Str),
    ∀ y ∈ dedupCIAux seen l,
      l.find? (fun z => strLower z == strLower y) = some y := by
  intro seen l
  induction l generalizing seen with
  | nil => simp [dedupCIAux]
  | cons x xs ih =>
    intro y hy
    rw [dedupCIAux] at hy
    rw [List.find?_cons]
    split at hy
    · next hx =>
      have hne : (strLower x == strLower y) = false := by
        simp only [beq_eq_false_iff_ne, ne_eq]
        intro hc
        exact dedupCIAux_not_seen _ _ y hy (hc ▸ hx)
      rw [hne]
      exact ih seen y hy
    · next hx =>
      rcases List.mem_cons.mp hy with hy | hy
      · rw [hy]
        rw [show (strLower x == strLower x) = true by simp]
      · have hne : (strLower x == strLower y) = false := by
          simp only [beq_eq_false_iff_ne, ne_eq]
          intro hc
          exact dedupCIAux_not_seen _ _ y hy (hc ▸ List.mem_cons_self _ _)
        rw [hne]
        exact ih (strLower x :: seen) y hy

theorem flatMap_cons_split_perm {β γ : Type} (f : β → γ) (g : β → List γ) :
    ∀ l : List β, (l.flatMap fun y => f y :: g y).Perm (l.map f ++ l.flatMap g) := by
  intro l
  induction l with
  | nil => simp
  | cons y l ih =>
    simp only [List.flatMap_cons, List.map_cons, List.cons_append]
    refine List.Perm.cons (f y) ?_
    exact (ih.append_left (g y)).trans (List.perm_append_comm_assoc _ _ _)

theorem flatMap_swap_product_perm {α β : Type} :
    ∀ (xs : List α) (ys : List β),
      (ys.flatMap fun y => xs.map fun x => (x, y)).Perm (xs ×ˢ ys) := by
  intro xs
  induction xs with
  | nil => intro ys; simp [List.nil_product]
  | cons x xs ih =>
    intro ys
    have h1 : (ys.flatMap fun y => (x :: xs).map fun x' => (x', y)) =
        ys.flatMap fun y => (x, y) :: (xs.map fun x' => (x', y)) := by
      simp
    rw [h1, List.product_cons]
    exact (flatMap_cons_split_perm _ _ ys).trans ((ih ys).append_left _)

theorem logOf_nonpos (x : ℝ) (h : x ≤ 0) : logOf x = 0 := by
  unfold logOf
  rw [max_eq_left h, zero_add, Real.logb_one]

theorem logOf_pos (x : ℝ) (h : 0 < x) : 0 < logOf x := by
  unfold logOf
  rw [max_eq_right h.le]
  exact Real.logb_pos (by norm_num) (by linarith)

theorem logOf_mono (x y : ℝ) (h : x ≤ y) : logOf x ≤ logOf y := by
  unfold logOf
  refine Real.logb_le_logb_of_le (by norm_num)
    (by have := le_max_left (0:ℝ) x; linarith) ?_
  have := max_le_max (le_refl (0:ℝ)) h
  linarith

theorem getD_map_at {α β : Type} (f : α → β) (l : List α) (i : Nat) (d : α)
    (d' : β) (h : i < l.length) : (l.map f).getD i d' = f (l.getD i d) := by
  rw [List.getD_eq_getElem _ _ (by simpa using h), List.getD_eq_getElem _ _ h]
  simp

theorem getD_zipWith_at {α β γ : Type} (f : α → β → γ) (l1 : List α)
    (l2 : List β) (i : Nat) (d1 : α) (d2 : β) (d3 : γ)
    (h1 : i < l1.length) (h2 : i < l2.length) :
    (List.zipWith f l1 l2).getD i d3 = f (l1.getD i d1) (l2.getD i d2) := by
  rw [List.getD_eq_getElem _ _ (by simp; omega),
      List.getD_eq_getElem _ _ h1, List.getD_eq_getElem _ _ h2]
  simp

theorem nzOf_mem_pos (values : List ℝ) : ∀ t ∈ nzOf values, 0 < t := by
  intro t ht
  unfold nzOf at ht
  have h1 := (List.perm_insertionSort _ _).mem_iff.mp ht
  have h2 := List.of_mem_filter h1
  simpa using h2

theorem nzOf_ne_nil (values : List ℝ) (i : Nat) (hi : i < values.length)
    (hv : 0 < values.getD i 0) : nzOf values ≠ [] := by
  have hmemv : values.getD i 0 ∈ values := by
    rw [List.getD_eq_getElem _ _ hi]
    exact List.getElem_mem _
  have hmem : logOf (values.getD i 0) ∈ logvOf values :=
    List.mem_map_of_mem _ hmemv
  have hmemf : logOf (values.getD i 0) ∈
      (logvOf values).filter fun x => decide (0 < x) :=
    List.mem_filter.mpr ⟨hmem, by simpa using logOf_pos _ hv⟩
  have hs : logOf (values.getD i 0) ∈ nzOf values := by
    unfold nzOf
    exact (List.perm_insertionSort _ _).mem_iff.mpr hmemf
  exact List.ne_nil_of_mem hs

theorem percentile_pos (arr : List ℝ) (q : ℝ) (hne : arr ≠ [])
    (hpos : ∀ x ∈ arr, 0 < x) (hq0 : 0 ≤ q) (hq1 : q ≤ 1) :
    0 < percentile arr q := by
  simp only [percentile]
  have hn1 : 1 ≤ arr.length := List.length_pos.mpr hne
  have hn1R : (1 : ℝ) ≤ (arr.length : ℝ) := by exact_mod_cast hn1
  set idx : ℝ := ((arr.length : ℝ) - 1) * q with hidxdef
  have hidx0 : 0 ≤ idx := mul_nonneg (by linarith) hq0
  have hidxle : idx ≤ ((arr.length - 1 : ℕ) : ℝ) := by
    rw [Nat.cast_sub hn1, Nat.cast_one]
    calc idx ≤ ((arr.length : ℝ) - 1) * 1 :=
        mul_le_mul_of_nonneg_left hq1 (by linarith)
      _ = (arr.length : ℝ) - 1 := mul_one _
  have hfloor : ⌊idx⌋₊ < arr.length := by
    have h1 : ⌊idx⌋₊ ≤ arr.length - 1 := Nat.floor_le_of_le hidxle
    omega
  have hceil : ⌈idx⌉₊ < arr.length := by
    have h1 : ⌈idx⌉₊ ≤ arr.length - 1 := Nat.ceil_le.mpr hidxle
    omega
  have ha : 0 < arr.getD ⌊idx⌋₊ 0 := by
    rw [List.getD_eq_getElem _ _ hfloor]
    exact hpos _ (List.getElem_mem _)
  have hb : 0 < arr.getD ⌈idx⌉₊ 0 := by
    rw [List.getD_eq_getElem _ _ hceil]
    exact hpos _ (List.getElem_mem _)
  have ht0 : 0 ≤ idx - (⌊idx⌋₊ : ℝ) := by
    have := Nat.floor_le hidx0
    linarith
  have ht1 : idx - (⌊idx⌋₊ : ℝ) < 1 := by
    have := Nat.lt_floor_add_one idx
    linarith
  have hterm1 : 0 < (1 - (idx - (⌊idx⌋₊ : ℝ))) * arr.getD ⌊idx⌋₊ 0 :=
    mul_pos (by linarith) ha
  have hterm2 : 0 ≤ (idx - (⌊idx⌋₊ : ℝ)) * arr.getD ⌈idx⌉₊ 0 :=
    mul_nonneg ht0 hb.le
  linarith

theorem boundsOf_pos (values : List ℝ) (hnz : nzOf values ≠ []) :
    0 < (boundsOf values).1 ∧ 0 < (boundsOf values).2 :=
  ⟨percentile_pos _ _ hnz (nzOf_mem_pos values) (by norm_num) (by norm_num),
   percentile_pos _ _ hnz (nzOf_mem_pos values) (by norm_num) (by norm_num)⟩

theorem heightMap_mono (lo hi power x y : ℝ) (hp : 0 ≤ power) (hxy : x ≤ y) :
    heightMap lo hi power x ≤ heightMap lo hi power y := by
  simp only [heightMap, clamp]
  rcases lt_trichotomy (hi - lo) 0 with hlt | heq | hgt
  · have hx : max lo (min hi x) = lo :=
      max_eq_left (by have := min_le_left hi x; linarith)
    have hy : max lo (min hi y) = lo :=
      max_eq_left (by have := min_le_left hi y; linarith)
    rw [hx, hy]
  · have hx : max lo (min hi x) = lo :=
      max_eq_left (by have := min_le_left hi x; linarith)
    have hy : max lo (min hi y) = lo :=
      max_eq_left (by have := min_le_left hi y; linarith)
    rw [hx, hy]
  · have hne : hi - lo ≠ 0 := ne_of_gt hgt
    rw [if_neg hne]
    have h1 : max lo (min hi x) ≤ max lo (min hi y) :=
      max_le_max le_rfl (min_le_min le_rfl hxy)
    have h2 : (max lo (min hi x) - lo) / (hi - lo) ≤
        (max lo (min hi y) - lo) / (hi - lo) :=
      (div_le_div_iff_of_pos_right hgt).mpr (by linarith)
    have h3 : max 0 (min 1 ((max lo (min hi x) - lo) / (hi - lo))) ≤
        max 0 (min 1 ((max lo (min hi y) - lo) / (hi - lo))) :=
      max_le_max le_rfl (min_le_min le_rfl h2)
    exact Real.rpow_le_rpow (le_max_left 0 _) h3 hp

theorem heightMap_zero_of_pos (lo hi power : ℝ) (hlo : 0 < lo) (hhi : 0 < hi)
    (hp : 0 < power) : heightMap lo hi power 0 = 0 := by
  simp only [heightMap, clamp]
  rw [min_eq_right hhi.le, max_eq_left hlo.le, sub_self, zero_div,
      min_eq_right zero_le_one, max_self]
  exact Real.zero_rpow (ne_of_gt hp)

theorem computeHeights_length (values : List ℝ) (power : ℝ) :
    (computeHeights values power).length = values.length := by
  simp only [computeHeights]
  split <;> simp [logvOf]

theorem computeHeights_zero_entry (values : List ℝ) (power : ℝ) (i : Nat)
    (hp : 0 < power) (hi : i < values.length) (hv : values.getD i 0 ≤ 0) :
    (computeHeights values power).getD i 0 = 0 := by
  have hlv : i < (logvOf values).length := by simpa [logvOf] using hi
  by_cases hnz : nzOf values = []
  · simp only [computeHeights, if_pos hnz]
    rw [getD_map_at _ _ _ 0 0 hlv]
  · simp only [computeHeights, if_neg hnz]
    rw [getD_map_at _ _ _ 0 0 hlv]
    unfold logvOf
    rw [getD_map_at _ _ _ 0 0 hi, logOf_nonpos _ hv]
    exact heightMap_zero_of_pos _ _ _ (boundsOf_pos values hnz).1
      (boundsOf_pos values hnz).2 hp

theorem heightMap_between (lo hi power x : ℝ) (hp : 0 < power)
    (h1 : lo < x) (h2 : x < hi) :
    0 < heightMap lo hi power x ∧ heightMap lo hi power x < 1 := by
  simp only [heightMap, clamp]
  rw [if_neg (by intro hc; linarith)]
  have e1 : min hi x = x := min_eq_right h2.le
  rw [e1]
  have e2 : max lo x = x := max_eq_right h1.le
  rw [e2]
  have hx2pos : 0 < (x - lo) / (hi - lo) := div_pos (by linarith) (by linarith)
  have hx2lt : (x - lo) / (hi - lo) < 1 :=
    (div_lt_one (by linarith)).mpr (by linarith)
  have e3 : min 1 ((x - lo) / (hi - lo)) = (x - lo) / (hi - lo) :=
    min_eq_right hx2lt.le
  rw [e3]
  have e4 : max 0 ((x - lo) / (hi - lo)) = (x - lo) / (hi - lo) :=
    max_eq_right hx2pos.le
  rw [e4]
  exact ⟨Real.rpow_pos_of_pos hx2pos power,
    Real.rpow_lt_one hx2pos.le hx2lt hp⟩

theorem lookup_eq_none_of {α : Type} (m : List (Str × α)) (k : Str)
    (h : ∀ p ∈ m, p.1 ≠ k) : m.lookup k = none := by
  induction m with
  | nil => rfl
  | cons hd tl ih =>
    obtain ⟨k', v⟩ := hd
    have hne : (k == k') = false :=
      beq_eq_false_iff_ne.mpr fun hc =>
        (h (k', v) (List.mem_cons_self _ _)) hc.symm
    simp only [List.lookup, hne]
    exact ih fun p hp => h p (List.mem_cons_of_mem _ hp)

theorem colorFromT_zero : colorFromT 0 = (60, 160, 230, 220) := by
  simp only [colorFromT, clamp]
  rw [min_eq_right zero_le_one, max_self]
  norm_num [round_eq]

theorem logvOf_example :
    logvOf [10, 100, 1000] =
      [Real.logb 10 11, Real.logb 10 101, Real.logb 10 1001] := by
  unfold logvOf logOf
  norm_num

theorem nzOf_example :
    nzOf [10, 100, 1000] =
      [Real.logb 10 11, Real.logb 10 101, Real.logb 10 1001] := by
  have h11 : (0:ℝ) < Real.logb 10 11 := Real.logb_pos (by norm_num) (by norm_num)
  have h101 : (0:ℝ) < Real.logb 10 101 :=
    Real.logb_pos (by norm_num) (by norm_num)
  have h1001 : (0:ℝ) < Real.logb 10 1001 :=
    Real.logb_pos (by norm_num) (by norm_num)
  have hab : Real.logb 10 11 ≤ Real.logb 10 101 :=
    Real.logb_le_logb_of_le (by norm_num) (by norm_num) (by norm_num)
  have hbc : Real.logb 10 101 ≤ Real.logb 10 1001 :=
    Real.logb_le_logb_of_le (by norm_num) (by norm_num) (by norm_num)
  unfold nzOf
  rw [logvOf_example]
  have hfilter : List.filter (fun x => decide (0 < x))
      [Real.logb 10 11, Real.logb 10 101, Real.logb 10 1001] =
      [Real.logb 10 11, Real.logb 10 101, Real.logb 10 1001] := by
    rw [List.filter_cons_of_pos (by simpa using h11),
        List.filter_cons_of_pos (by simpa using h101),
        List.filter_cons_of_pos (by simpa using h1001),
        List.filter_nil]
  rw [hfilter]
  refine List.Sorted.insertionSort_eq ?_
  simp [List.sorted_cons, hab, hbc, hab.trans hbc]

theorem percentile3_005 (a b c : ℝ) :
    percentile [a, b, c] 0.05 = 0.9 * a + 0.1 * b := by
  have hlen : ((([a, b, c] : List ℝ).length : ℝ) - 1) * 0.05 = 0.1 := by
    norm_num
  simp only [percentile]
  rw [hlen, show ⌊(0.1:ℝ)⌋₊ = 0 from Nat.floor_eq_zero.mpr (by norm_num),
      show ⌈(0.1:ℝ)⌉₊ = 1 from by rw [Nat.ceil_eq_iff one_ne_zero]; norm_num]
  simp only [List.getD_cons_zero, List.getD_cons_succ]
  push_cast
  ring

theorem percentile3_098 (a b c : ℝ) :
    percentile [a, b, c] 0.98 = 0.04 * b + 0.96 * c := by
  have hlen : ((([a, b, c] : List ℝ).length : ℝ) - 1) * 0.98 = 1.96 := by
    norm_num
  simp only [percentile]
  rw [hlen, show ⌊(1.96:ℝ)⌋₊ = 1 from by rw [Nat.floor_eq_iff (by norm_num)]; norm_num,
      show ⌈(1.96:ℝ)⌉₊ = 2 from by rw [Nat.ceil_eq_iff (by norm_num)]; norm_num]
  simp only [List.getD_cons_zero, List.getD_cons_succ]
  push_cast
  ring

/-! ## Claim theorems -/

/-- Claim C7: `to_iso3` applied to `"South Korea"` first maps it through the
static alias table to `"Korea, Republic of"`, then looks that name up in
the reference country registry, giving ISO-3 `"KOR"`. -/
theorem to_iso3_south_korea (registry : Str → Option Str)
    (h : registry (strOf ("Korea, Republic of")) = some (strOf ("KOR"))) :
    patches.lookup (strOf ("South Korea")) = some (strOf ("Korea, Republic of")) ∧
    to_iso3 registry (strOf ("South Korea")) = some (strOf ("KOR")) := by
  refine ⟨by decide, ?_⟩
  have e : to_iso3 registry (strOf ("South Korea")) =
      registry (strOf ("Korea, Republic of")) := rfl
  rw [e, h]

/-- Witness for C7: a registry mapping `"Korea, Republic of"` to `"KOR"`. -/
theorem to_iso3_south_korea_witness :
    to_iso3
        (fun n => if n = strOf ("Korea, Republic of") then some (strOf ("KOR")) else none)
        (strOf ("South Korea")) = some (strOf ("KOR")) :=
  (to_iso3_south_korea
    (fun n => if n = strOf ("Korea, Republic of") then some (strOf ("KOR")) else none)
    (by decide)).2

/-- Claim C6: in `read_country_languages`, every row whose country name
fails ISO-3 resolution is counted in the `bad_rows` diagnostic counter —
the counter equals exactly the number of failing rows — and contributes
nothing to the language-mapping output: every map entry originates from a
row that resolved successfully. The function is total, so no row aborts
the run. -/
theorem read_country_languages_drops_and_counts (registry : Str → Option Str)
    (rows : List (Str × Str)) :
    (read_country_languages registry rows).2.2 =
      (rows.filter fun row => isFalsyStrOpt (to_iso3 registry row.1)).length ∧
    ∀ p ∈ (read_country_languages registry rows).1,
      ∃ row ∈ rows, to_iso3 registry row.1 = some p.1 ∧
        isFalsyStrOpt (to_iso3 registry row.1) = false ∧
        p.2 = parse_languages_cell row.2 := by
  constructor
  · show (rows.foldl (readLangsStep registry) ⟨[], [], 0⟩).bad = _
    rw [readLangs_foldl_bad]
    simp
  · intro p hp
    rcases readLangs_foldl_map registry rows ⟨[], [], 0⟩ p hp with h | h
    · simp at h
    · exact h

/-- Claim C8: `parse_languages_cell` returns the cleaned entries
deduplicated case-insensitively: the result has pairwise distinct
lower-cased forms, is a sublist of the cleaned entry list (so the relative
order of first occurrences is preserved), covers every cleaned entry up to
case, and each kept entry is exactly the first cleaned entry with its
lower-cased form (so the first occurrence's original casing is kept). -/
theorem parse_languages_cell_dedup (cell : Str) :
    ((parse_languages_cell cell).map strLower).Nodup ∧
    List.Sublist (parse_languages_cell cell) (cleanParts cell) ∧
    (∀ x ∈ cleanParts cell,
      ∃ y ∈ parse_languages_cell cell, strLower y = strLower x) ∧
    (∀ y ∈ parse_languages_cell cell,
      (cleanParts cell).find? (fun z => strLower z == strLower y) = some y) := by
  refine ⟨dedupCIAux_nodup [] _, dedupCIAux_sublist [] _, ?_, ?_⟩
  · intro x hx
    exact dedupCIAux_covers [] _ x hx (by simp)
  · intro y hy
    exact dedupCIAux_first [] _ y hy

/-- Witness for C8: on a concrete cell, `"ENGLISH"` is dropped as a
case-insensitive duplicate of `"English"`, whose casing and position are
kept. -/
theorem parse_languages_cell_dedup_witness :
    List.Sublist
      (parse_languages_cell (strOf ("English, ENGLISH; French")))
      (cleanParts (strOf ("English, ENGLISH; French"))) ∧
    parse_languages_cell (strOf ("English, ENGLISH; French")) =
      [strOf ("English"), strOf ("French")] :=
  ⟨(parse_languages_cell_dedup (strOf ("English, ENGLISH; French"))).2.1,
   by decide⟩

/-- Counterexample for C1: on the input `{10, 100, 1000}` the lower
normalization bound used by `computeHeights` is the interpolated 5th
percentile of the non-zero log-values, which differs from the minimum
non-zero log-value `log10(11)` the claim asserts. -/
theorem boundsOf_not_logmin :
    (boundsOf [10, 100, 1000]).1 ≠ Real.logb 10 11 := by
  have h : Real.logb 10 11 < Real.logb 10 101 :=
    Real.logb_lt_logb (by norm_num) (by norm_num) (by norm_num)
  unfold boundsOf
  rw [nzOf_example, percentile3_005]
  intro hc
  linarith

/-- Claim C1 (amended): `computeHeights` computes its normalization bounds
as the linearly interpolated 5th and 98th percentiles of the ascending
non-zero log-values; for `{10, 100, 1000}` this gives
`lo = 0.9 log10(11) + 0.1 log10(101)` and
`hi = 0.04 log10(101) + 0.96 log10(1001)`, the middle country's normalized
output lies strictly between 0 and 1, and when no non-zero log-value
exists the function returns all zeros (no bounds are computed). -/
theorem computeHeights_percentile_bounds (power : ℝ) (hp : 0 < power) :
    boundsOf [10, 100, 1000] =
      (0.9 * Real.logb 10 11 + 0.1 * Real.logb 10 101,
       0.04 * Real.logb 10 101 + 0.96 * Real.logb 10 1001) ∧
    0 < (computeHeights [10, 100, 1000] power).getD 1 0 ∧
    (computeHeights [10, 100, 1000] power).getD 1 0 < 1 ∧
    ∀ (vs : List ℝ) (p : ℝ), (∀ x ∈ vs, x ≤ 0) →
      computeHeights vs p = vs.map fun _ => 0 := by
  have hbounds : boundsOf [10, 100, 1000] =
      (0.9 * Real.logb 10 11 + 0.1 * Real.logb 10 101,
       0.04 * Real.logb 10 101 + 0.96 * Real.logb 10 1001) := by
    unfold boundsOf
    rw [nzOf_example, percentile3_005, percentile3_098]
  have hab : Real.logb 10 11 < Real.logb 10 101 :=
    Real.logb_lt_logb (by norm_num) (by norm_num) (by norm_num)
  have hbc : Real.logb 10 101 < Real.logb 10 1001 :=
    Real.logb_lt_logb (by norm_num) (by norm_num) (by norm_num)
  have hnz : nzOf [10, 100, 1000] ≠ [] := by
    rw [nzOf_example]
    simp
  have hmid : (computeHeights [10, 100, 1000] power).getD 1 0 =
      heightMap (0.9 * Real.logb 10 11 + 0.1 * Real.logb 10 101)
        (0.04 * Real.logb 10 101 + 0.96 * Real.logb 10 1001) power
        (Real.logb 10 101) := by
    simp only [computeHeights, if_neg hnz]
    rw [getD_map_at _ _ _ 0 0 (by rw [logvOf_example]; norm_num)]
    rw [logvOf_example, hbounds]
    simp only [List.getD_cons_zero, List.getD_cons_succ]
  refine ⟨hbounds, ?_, ?_, ?_⟩
  · rw [hmid]
    exact (heightMap_between _ _ _ _ hp (by linarith) (by linarith)).1
  · rw [hmid]
    exact (heightMap_between _ _ _ _ hp (by linarith) (by linarith)).2
  · intro vs p hvs
    have hnzv : nzOf vs = [] := by
      unfold nzOf
      have hfe : (logvOf vs).filter (fun x => decide (0 < x)) = [] := by
        rw [List.filter_eq_nil_iff]
        intro t ht
        rcases List.mem_map.mp ht with ⟨x, hx, rfl⟩
        simp [logOf_nonpos x (hvs x hx)]
      rw [hfe]
      rfl
    simp only [computeHeights, if_pos hnzv]
    unfold logvOf
    rw [List.map_map]
    rfl

/-- Witness for C1's amended theorem at power 1: the middle country's
normalized value is strictly between 0 and 1. -/
theorem computeHeights_percentile_bounds_witness :
    0 < (computeHeights [10, 100, 1000] 1).getD 1 0 ∧
    (computeHeights [10, 100, 1000] 1).getD 1 0 < 1 :=
  ⟨(computeHeights_percentile_bounds 1 one_pos).2.1,
   (computeHeights_percentile_bounds 1 one_pos).2.2.1⟩

/-- Claim C2: `computeHeights` is monotonic: for every input value list and
positive contrast power, if entry `i` exceeds entry `j` and entry `j` is
positive, the normalized output at `i` is at least the output at `j`. -/
theorem computeHeights_monotone (values : List ℝ) (power : ℝ) (hp : 0 < power)
    (i j : Nat) (hi : i < values.length) (hj : j < values.length)
    (hBA : values.getD j 0 < values.getD i 0) (hB : 0 < values.getD j 0) :
    (computeHeights values power).getD j 0 ≤
      (computeHeights values power).getD i 0 := by
  have hnz : nzOf values ≠ [] := nzOf_ne_nil values j hj hB
  have hlvi : i < (logvOf values).length := by simpa [logvOf] using hi
  have hlvj : j < (logvOf values).length := by simpa [logvOf] using hj
  simp only [computeHeights, if_neg hnz]
  rw [getD_map_at _ _ _ 0 0 hlvi, getD_map_at _ _ _ 0 0 hlvj]
  unfold logvOf
  rw [getD_map_at _ _ _ 0 0 hi, getD_map_at _ _ _ 0 0 hj]
  exact heightMap_mono _ _ _ _ _ hp.le (logOf_mono _ _ hBA.le)

/-- Witness for C2: values `[1, 2]` with power `1`; the output at the
larger value dominates the output at the smaller one. -/
theorem computeHeights_monotone_witness :
    (computeHeights [1, 2] 1).getD 0 0 ≤ (computeHeights [1, 2] 1).getD 1 0 :=
  computeHeights_monotone [1, 2] 1 (by norm_num) 1 0 (by norm_num)
    (by norm_num) (by norm_num) (by norm_num)

/-- Claim C4: the multiset of (identity, year) pairs of `wide_to_long`'s
output is exactly the cross-product of the identity column's values and
the integer values of the digit-named year columns (all other columns are
ignored); when identities and year values are distinct, no pair is
duplicated, and the output length is always `#rows * #year-columns`, so no
row is dropped. -/
theorem wide_to_long_cross_product (w : WideTable) (code_col : Str)
    (hids : (w.rows.map fun r => r code_col).Nodup)
    (hyears : ((yearColsOf w).map fun c => (strToNat c : Int)).Nodup) :
    ((wide_to_long w code_col).map fun m => (m.code, m.year)).Perm
      ((w.rows.map fun r => r code_col) ×ˢ
        ((yearColsOf w).map fun c => (strToNat c : Int))) ∧
    ((wide_to_long w code_col).map fun m => (m.code, m.year)).Nodup ∧
    (wide_to_long w code_col).length =
      w.rows.length * (yearColsOf w).length := by
  have hperm : ((wide_to_long w code_col).map fun m => (m.code, m.year)).Perm
      ((w.rows.map fun r => r code_col) ×ˢ
        ((yearColsOf w).map fun c => (strToNat c : Int))) := by
    unfold wide_to_long
    rw [List.map_flatMap]
    have hinner : ∀ c : Str,
        ((w.rows.map fun r =>
            (⟨r code_col, (strToNat c : Nat), r c⟩ : MeltRow)).map
          fun m => (m.code, m.year)) =
        (w.rows.map fun r => r code_col).map
          fun id => (id, ((strToNat c : Nat) : Int)) := by
      intro c
      rw [List.map_map, List.map_map]
      rfl
    rw [List.flatMap_congr fun c _ => hinner c]
    have hsplit : ((yearColsOf w).flatMap fun c =>
          (w.rows.map fun r => r code_col).map
            fun id => (id, ((strToNat c : Nat) : Int))) =
        (((yearColsOf w).map fun c => (strToNat c : Int)).flatMap fun y =>
          (w.rows.map fun r => r code_col).map fun id => (id, y)) := by
      rw [List.flatMap_map]
    rw [hsplit]
    exact flatMap_swap_product_perm _ _
  refine ⟨hperm, hperm.nodup_iff.mpr (hids.product hyears), ?_⟩
  have h1 : ((wide_to_long w code_col).map fun m => (m.code, m.year)).length =
      ((w.rows.map fun r => r code_col) ×ˢ
        ((yearColsOf w).map fun c => (strToNat c : Int))).length :=
    hperm.length_eq
  rw [List.length_map, List.length_product, List.length_map, List.length_map] at h1
  exact h1

/-- Witness for C4: a 2-row table with columns `Country Code`, `Indicator`
(ignored), `2000`, `2001`; the melt gives 4 rows with distinct pairs. -/
theorem wide_to_long_cross_product_witness :
    ((wide_to_long
        ⟨[strOf ("Country Code"), strOf ("Indicator"),
          strOf ("2000"), strOf ("2001")],
         [fun c => if c = strOf ("Country Code") then strOf ("USA")
            else strOf ("10"),
          fun c => if c = strOf ("Country Code") then strOf ("FRA")
            else strOf ("5")]⟩
        (strOf ("Country Code"))).map fun m => (m.code, m.year)).Nodup ∧
    (wide_to_long
        ⟨[strOf ("Country Code"), strOf ("Indicator"),
          strOf ("2000"), strOf ("2001")],
         [fun c => if c = strOf ("Country Code") then strOf ("USA")
            else strOf ("10"),
          fun c => if c = strOf ("Country Code") then strOf ("FRA")
            else strOf ("5")]⟩
        (strOf ("Country Code"))).length = 2 * 2 :=
  ⟨(wide_to_long_cross_product
      ⟨[strOf ("Country Code"), strOf ("Indicator"),
        strOf ("2000"), strOf ("2001")],
       [fun c => if c = strOf ("Country Code") then strOf ("USA")
          else strOf ("10"),
        fun c => if c = strOf ("Country Code") then strOf ("FRA")
          else strOf ("5")]⟩
      (strOf ("Country Code")) (by decide) (by decide)).2.1,
   ((wide_to_long_cross_product
      ⟨[strOf ("Country Code"), strOf ("Indicator"),
        strOf ("2000"), strOf ("2001")],
       [fun c => if c = strOf ("Country Code") then strOf ("USA")
          else strOf ("10"),
        fun c => if c = strOf ("Country Code") then strOf ("FRA")
          else strOf ("5")]⟩
      (strOf ("Country Code")) (by decide) (by decide)).2.2).trans (by decide)⟩

/-- Claim C5: every per-country array produced by `build_iso3_series` has
length equal to the year list and is indexed by year position; its entries
are total rational values (never null), and any position for which every
row of that country is missing or NaN holds exactly `0`. -/
theorem build_iso3_series_arrays (rows : List LongRow) (years : List Int)
    (k : Str) (arr : List ℚ)
    (hmem : (k, arr) ∈ build_iso3_series rows years) :
    arr.length = years.length ∧
    ∀ i, i < years.length →
      (∀ r ∈ rows, strUpper r.iso3 = k → yearIndex years r.year = some i →
        r.value = none) →
      arr.getD i 0 = 0 := by
  rcases build_iso3_series_mem rows years (k, arr) hmem with ⟨k0, hk0, hfst, hsnd⟩
  simp only at hfst hsnd
  constructor
  · rw [hsnd, seriesForGroup_length]
  · intro i _ hall
    rw [hsnd]
    unfold seriesForGroup
    refine seriesFold_getD_zero years i _ _ (getD_replicate _ _ _) ?_
    intro r hr hyi
    have hrmem := (List.mem_filter.mp hr).1
    have hriso : r.iso3 = k0 := by simpa using (List.mem_filter.mp hr).2
    exact hall r hrmem (by rw [hriso]; exact hfst.symm) hyi

/-- Witness for C5: one country with a NaN row; the array has the year
list's length and holds `0` at both the NaN year and the missing year. -/
theorem build_iso3_series_arrays_witness :
    ([0, 0] : List ℚ).length = ([2000, 2001] : List Int).length ∧
    ([0, 0] : List ℚ).getD 1 0 = 0 :=
  ⟨(build_iso3_series_arrays [⟨strOf ("AAA"), 2000, none⟩] [2000, 2001]
      (strOf ("AAA")) [0, 0] (by decide)).1,
   (build_iso3_series_arrays [⟨strOf ("AAA"), 2000, none⟩] [2000, 2001]
      (strOf ("AAA")) [0, 0] (by decide)).2 1 (by decide) (by decide)⟩

/-- Claim C10: in `build_iso3_series`, when several rows share the same
(iso3, year) pair, the stored value is that of the last such row in input
order (later rows overwrite earlier ones; duplicates are never summed and
never raise — the fold is total), and rows whose year is not in the year
list leave the array untouched. -/
theorem build_iso3_series_last_overwrites (rows : List LongRow)
    (years : List Int) (hupper : ∀ r ∈ rows, strUpper r.iso3 = r.iso3)
    (k : Str) (arr : List ℚ)
    (hmem : (k, arr) ∈ build_iso3_series rows years) (i : Nat) (r : LongRow)
    (hlast : (rows.filter fun r' =>
        decide (r'.iso3 = k ∧ yearIndex years r'.year = some i)).getLast?
      = some r) :
    arr.getD i 0 = valueOrZero r.value ∧
    ∀ (sub : List LongRow) (row : LongRow), yearIndex years row.year = none →
      seriesForGroup years (sub ++ [row]) = seriesForGroup years sub := by
  constructor
  · rcases build_iso3_series_mem rows years (k, arr) hmem with ⟨k0, hk0, hfst, hsnd⟩
    simp only at hfst hsnd
    have hk0up : strUpper k0 = k0 := by
      rcases groupKeys_mem rows k0 hk0 with ⟨r0, hr0, hiso⟩
      rw [← hiso]
      exact hupper r0 hr0
    have hkk0 : k = k0 := by rw [hfst, hk0up]
    subst hkk0
    rw [hsnd]
    refine seriesFold_last years i r _ ?_
    have hff : (List.filter (fun r' => decide (yearIndex years r'.year = some i))
          (rows.filter (·.iso3 = k))) =
        rows.filter fun r' =>
          decide (r'.iso3 = k ∧ yearIndex years r'.year = some i) := by
      rw [List.filter_filter]
      refine List.filter_congr fun a _ => ?_
      rw [Bool.decide_and]
      exact Bool.and_comm _ _
    rw [hff, hlast]
  · intro sub row h
    unfold seriesForGroup
    rw [List.foldl_append]
    simp [seriesStep, h]

/-- Witness for C10: two rows for the same (iso3, year); the stored value
is the later row's `5`, not the sum `6`. -/
theorem build_iso3_series_last_overwrites_witness :
    build_iso3_series
        [⟨strOf ("AAA"), 2000, some 1⟩, ⟨strOf ("AAA"), 2000, some 5⟩]
        [2000] = [(strOf ("AAA"), [5])] ∧
    ([5] : List ℚ).getD 0 0 = valueOrZero (some 5) :=
  ⟨by decide,
   (build_iso3_series_last_overwrites
      [⟨strOf ("AAA"), 2000, some 1⟩, ⟨strOf ("AAA"), 2000, some 5⟩]
      [2000] (by decide) (strOf ("AAA")) [5] (by decide) 0
      ⟨strOf ("AAA"), 2000, some 5⟩ (by decide)).1⟩

/-- Counterexample for C3: a feature whose ISO-3 code `"ZZZ"` is absent
from all metric data *is* annotated with the fixed defaults (zero series,
`"Unknown"`, empty languages), but in the viewer's initial state its
computed color is `colorFromT(0) = [60,160,230,220]` — the cool end of the
gradient, not a neutral gray: it differs from the `[120,120,120,120]`
fallback, from the `[60,60,60,60]` inactive color, and has unequal red and
green channels. -/
theorem attach_no_data_not_gray :
    attach_all_properties [2000] [] [] [] []
        [⟨some (strOf ("ZZZ")), none, none, none, none⟩] =
      [⟨some (strOf ("ZZZ")), some [0], some [0], some (strOf ("Unknown")),
        some []⟩] ∧
    activeDerived (initState 1)
        [⟨some (strOf ("ZZZ")), some [0], some [0], some (strOf ("Unknown")),
          some []⟩] =
      [⟨0, 0, (60, 160, 230, 220), 0⟩] ∧
    ((60:ℤ), (160:ℤ), (230:ℤ), (220:ℤ)) ≠ fallbackGray ∧
    ((60:ℤ), (160:ℤ), (230:ℤ), (220:ℤ)) ≠ inactiveColor ∧
    (60:ℤ) ≠ 160 := by
  refine ⟨by decide, ?_, by decide, by decide, by decide⟩
  have hact : activeFeatures (initState 1)
      [⟨some (strOf ("ZZZ")), some [0], some [0], some (strOf ("Unknown")),
        some []⟩] =
      [⟨some (strOf ("ZZZ")), some [0], some [0], some (strOf ("Unknown")),
        some []⟩] := rfl
  have hraw : rawValueFor (initState 1)
      ⟨some (strOf ("ZZZ")), some [0], some [0], some (strOf ("Unknown")),
        some []⟩ = 0 := rfl
  have hnz : nzOf [(0:ℝ)] = [] := by
    unfold nzOf
    have hlv : logvOf [(0:ℝ)] = [0] := by
      unfold logvOf
      rw [List.map_cons, List.map_nil, logOf_nonpos 0 le_rfl]
    rw [hlv]
    have hf : List.filter (fun x => decide (0 < x)) [(0:ℝ)] = [] := by
      simp
    rw [hf]
    rfl
  have hch : computeHeights [(0:ℝ)] (initState 1).power = [0] := by
    simp only [computeHeights, if_pos hnz]
    have hlv : logvOf [(0:ℝ)] = [0] := by
      unfold logvOf
      rw [List.map_cons, List.map_nil, logOf_nonpos 0 le_rfl]
    rw [hlv, List.map_cons, List.map_nil]
  simp only [activeDerived]
  rw [hact]
  have hmap : ([⟨some (strOf ("ZZZ")), some [0], some [0],
      some (strOf ("Unknown")), some []⟩] : List Feature).map
        (fun f => ((rawValueFor (initState 1) f : ℚ) : ℝ)) = [(0:ℝ)] := by
    rw [List.map_cons, List.map_nil, hraw]
    norm_num
  rw [hmap, hch, List.zipWith_cons_cons, List.zipWith_nil_right]
  rw [hraw, colorFromT_zero, zero_mul]

/-- Claim C3 (amended): `attach_all_properties` never omits a feature and
always writes all four annotation keys; a country absent from every data
map receives exactly the fixed defaults — a zero series of the year list's
length for both metrics, continent `"Unknown"`, empty language list — and
in the viewer a zero-valued active feature gets `_t = 0`, elevation
`_alt = 0`, and color `colorFromT 0` (the gradient's cool end, not a
neutral gray). -/
theorem attach_all_properties_defaults (years : List Int)
    (pop_series gdp_series : List (Str × List ℚ))
    (continent_map : List (Str × Str))
    (iso3_to_langs : List (Str × List Str)) (feats : List Feature) :
    (attach_all_properties years pop_series gdp_series continent_map
        iso3_to_langs feats).length = feats.length ∧
    (∀ g ∈ attach_all_properties years pop_series gdp_series continent_map
        iso3_to_langs feats,
      g.pop.isSome ∧ g.gdp.isSome ∧ g.continent.isSome ∧ g.langs.isSome) ∧
    (∀ f ∈ feats,
      (∀ p ∈ pop_series, p.1 ≠ iso3OfFeature f) →
      (∀ p ∈ gdp_series, p.1 ≠ iso3OfFeature f) →
      (∀ p ∈ continent_map, p.1 ≠ iso3OfFeature f) →
      (∀ p ∈ iso3_to_langs, p.1 ≠ iso3OfFeature f) →
      attach_feature years pop_series gdp_series continent_map iso3_to_langs
          f =
        { f with
          pop := some (List.replicate years.length 0)
          gdp := some (List.replicate years.length 0)
          continent := some (strOf ("Unknown"))
          langs := some [] }) ∧
    (∀ (st : ViewerState) (afeats : List Feature) (i : Nat),
      0 < st.power → i < (activeFeatures st afeats).length →
      rawValueFor st ((activeFeatures st afeats).getD i emptyFeature) = 0 →
      ((activeDerived st afeats).getD i inactiveDerived).t = 0 ∧
      ((activeDerived st afeats).getD i inactiveDerived).alt = 0 ∧
      ((activeDerived st afeats).getD i inactiveDerived).col = colorFromT 0) := by
  refine ⟨by simp [attach_all_properties], ?_, ?_, ?_⟩
  · intro g hg
    rcases List.mem_map.mp hg with ⟨f, _, rfl⟩
    simp [attach_feature]
  · intro f _ h1 h2 h3 h4
    simp only [attach_feature, lookupD]
    rw [lookup_eq_none_of _ _ h1, lookup_eq_none_of _ _ h2,
        lookup_eq_none_of _ _ h3, lookup_eq_none_of _ _ h4]
    rfl
  · intro st afeats i hpow hi hraw
    have hmaplen : i < ((activeFeatures st afeats).map
        fun f => ((rawValueFor st f : ℚ) : ℝ)).length := by
      rw [List.length_map]
      exact hi
    have hlen2 : i < (computeHeights ((activeFeatures st afeats).map
        fun f => ((rawValueFor st f : ℚ) : ℝ)) st.power).length := by
      rw [computeHeights_length]
      exact hmaplen
    have htzero : (computeHeights ((activeFeatures st afeats).map
        fun f => ((rawValueFor st f : ℚ) : ℝ)) st.power).getD i 0 = 0 := by
      refine computeHeights_zero_entry _ _ _ hpow hmaplen ?_
      rw [getD_map_at _ _ _ emptyFeature 0 hi, hraw]
      norm_num
    simp only [activeDerived]
    rw [getD_zipWith_at _ _ _ _ emptyFeature 0 inactiveDerived hi hlen2,
        htzero]
    exact ⟨rfl, zero_mul _, rfl⟩

/-- Witness for C3's amended theorem: a single no-data feature with empty
data maps receives exactly the default annotations. -/
theorem attach_all_properties_defaults_witness :
    attach_feature [2000] [] [] [] []
        ⟨some (strOf ("ZZZ")), none, none, none, none⟩ =
      ⟨some (strOf ("ZZZ")), some (List.replicate 1 0),
        some (List.replicate 1 0), some (strOf ("Unknown")), some []⟩ :=
  (attach_all_properties_defaults [2000] [] [] [] []
      [⟨some (strOf ("ZZZ")), none, none, none, none⟩]).2.2.1
    ⟨some (strOf ("ZZZ")), none, none, none, none⟩ (by decide)
    (by decide) (by decide) (by decide) (by decide)

/-- Counterexample for C9: on a cache miss with response body `" 1"`, the
single cache write is `"1"` — `json.dumps` of the parsed response — which
is not byte-identical to the raw response body. The claim that the raw
response is persisted is therefore false. -/
theorem download_geojson_not_raw_response :
    download_geojson miniLoads miniDumps none (some (strOf (" 1"))) =
      .ok ⟨1, some (strOf ("1")), true, [strOf ("1")]⟩ ∧
    strOf ("1") ≠ strOf (" 1") := ⟨rfl, by decide⟩

/-- Claim C9 (amended): `download_geojson` checks the cache first and, when
it exists, returns its parsed content with no fetch and no write; on a
cache miss it fetches once, persists the re-serialization `json.dumps` of
the parsed response exactly once (not the raw response bytes), and returns
the parsed structure; a subsequent run re-reads the cache with no further
fetch or write, the cache content remaining byte-identical to what was
written on first download. -/
theorem download_geojson_write_once {α : Type} (loads : Str → Option α)
    (dumps : α → Str) (net net' : Option Str) (c body : Str) (v w u : α)
    (hc : loads c = some v) (hbody : loads body = some w)
    (hu : loads (dumps w) = some u) :
    download_geojson loads dumps (some c) net = .ok ⟨v, some c, false, []⟩ ∧
    download_geojson loads dumps none (some body) =
      .ok ⟨w, some (dumps w), true, [dumps w]⟩ ∧
    download_geojson loads dumps (some (dumps w)) net' =
      .ok ⟨u, some (dumps w), false, []⟩ := by
  refine ⟨?_, ?_, ?_⟩
  · show (match loads c with
      | some v => Except.ok (⟨v, some c, false, []⟩ : DlOutcome α)
      | none => Except.error DlError.jsonError) = _
    rw [hc]
  · show (match loads body with
      | some v => Except.ok (⟨v, some (dumps v), true, [dumps v]⟩ : DlOutcome α)
      | none => Except.error DlError.jsonError) = _
    rw [hbody]
  · show (match loads (dumps w) with
      | some v => Except.ok (⟨v, some (dumps w), false, []⟩ : DlOutcome α)
      | none => Except.error DlError.jsonError) = _
    rw [hu]

/-- Witness for C9's amended theorem, instantiated with the integer JSON
codec: a hit on cache `"5"`, a miss on body `" 1"`, and the re-read of the
written cache `"1"`. -/
theorem download_geojson_write_once_witness :
    download_geojson miniLoads miniDumps (some (strOf ("5"))) none =
      .ok ⟨5, some (strOf ("5")), false, []⟩ ∧
    download_geojson miniLoads miniDumps none (some (strOf (" 1"))) =
      .ok ⟨1, some (miniDumps 1), true, [miniDumps 1]⟩ ∧
    download_geojson miniLoads miniDumps (some (miniDumps 1)) none =
      .ok ⟨1, some (miniDumps 1), false, []⟩ :=
  download_geojson_write_once miniLoads miniDumps none none
    (strOf ("5")) (strOf (" 1")) 5 1 1 (by decide) (by decide) (by decide)

/-- Witness for C6: one resolvable row, one unresolvable row; the counter
reports exactly one bad row. -/
theorem read_country_languages_drops_and_counts_witness :
    (read_country_languages
        (fun n => if n = strOf ("France") then some (strOf ("FRA")) else none)
        [(strOf ("France"), strOf ("French")),
         (strOf ("Atlantis"), strOf ("Atlantean"))]).2.2 = 1 :=
  (read_country_languages_drops_and_counts
    (fun n => if n = strOf ("France") then some (strOf ("FRA")) else none)
    [(strOf ("France"), strOf ("French")),
     (strOf ("Atlantis"), strOf ("Atlantean"))]).1.trans (by decide)

end WorldGlobe
